import Mathlib

/-!
Verification of `src/utils.rs` of the mosse-tracker repository.

Shallow embedding conventions:
* `u8` intensities and `u32` coordinates/indices are modelled as `ℕ`
  (no arithmetic in the modelled code paths can overflow 32 bits under the
  stated hypotheses; where the Rust code uses `saturating_sub` or checked
  operations this is made explicit).
* `f32` arithmetic is modelled over `ℝ` (the idealized real semantics the
  specification speaks in: exact `ln`, `sqrt`, `sin`, `π`).
* A panic (`unwrap` of `None`) is modelled by an `Option` returning `none`.
* `image::GrayImage` is an `image::ImageBuffer`, which stores its pixels
  row-major (row by row, x varying fastest); `pixels()` yields them in buffer
  order, so the pixel at buffer position `p` is the pixel at
  `(x, y) = (p % width, p / width)`.
* `image::imageops::crop(image, x, y, w, h)` clamps the requested rectangle
  to the image: `x' = min x width`, `y' = min y height`,
  `h' = min h (height - y')`, `w' = min w (width - x')`, and `to_image`
  copies that rectangle into a fresh `w' × h'` buffer.
* `image::ImageBuffer::from_vec(w, h, buf)` (= `from_raw`) succeeds iff the
  container holds at least `w * h` samples (one channel for `Luma<u8>`);
  an oversized buffer is accepted.
-/

namespace Mosse

/-- A grayscale frame: dimensions plus the pixel intensity at each
coordinate `(x, y)` (`u8` intensity modelled as `ℕ`). -/
structure GrayImage where
  width : ℕ
  height : ℕ
  pix : ℕ → ℕ → ℕ

/-- `pub fn index_to_coords(width: u32, index: u32) -> (u32, u32)`:
`x = index.checked_rem(width).unwrap()` and
`y = (index.checked_sub(x).unwrap()).checked_div(width).unwrap()`.
Each `unwrap` of a failed checked operation (a panic) is modelled as `none`. -/
def index_to_coords (width index : ℕ) : Option (ℕ × ℕ) := do
  let x ← if width = 0 then none else some (index % width)
  let d ← if index < x then none else some (index - x)
  let y ← if width = 0 then none else some (d / width)
  return (x, y)

/-- The clamping `image::imageops::crop` applies to a requested rectangle
`(x, y, width, height)` inside a `w × h` image (see module docstring):
returns the clamped `(x, y, width, height)`. -/
def crop_dimms (w h x y cwidth cheight : ℕ) : ℕ × ℕ × ℕ × ℕ :=
  let x' := min x w
  let y' := min y h
  let cheight' := min cheight (h - y')
  let cwidth' := min cwidth (w - x')
  (x', y', cwidth', cheight')

/-- `pub fn window_crop(input_frame, window_width, window_height, center)`:
crops at top-left corner
`(min (center.0.saturating_sub(window_width / 2)) (width - window_width),
  min (center.1.saturating_sub(window_height / 2)) (height - window_height))`.
Rust `saturating_sub` on `u32` is exactly `ℕ` subtraction; the plain
`width - window_width` is also modelled by `ℕ` subtraction, which matches
`u32` subtraction whenever `window_width ≤ width` (the spec's precondition;
outside it the Rust code panics in debug builds). -/
def window_crop (input_frame : GrayImage) (window_width window_height : ℕ)
    (center : ℕ × ℕ) : GrayImage :=
  let x0 := min (center.1 - window_width / 2) (input_frame.width - window_width)
  let y0 := min (center.2 - window_height / 2) (input_frame.height - window_height)
  let r := crop_dimms input_frame.width input_frame.height x0 y0
    window_width window_height
  ⟨r.2.2.1, r.2.2.2, fun x y => input_frame.pix (r.1 + x) (r.2.1 + y)⟩

/-- Rust's saturating `f32 as u8` cast applied by `to_imgbuf` to each sample:
truncate toward zero, clamping to `[0, 255]` (over `ℝ`; no NaN). -/
noncomputable def f32_as_u8 (c : ℝ) : ℕ :=
  (max 0 (min 255 ⌊c⌋)).toNat

/-- `pub fn to_imgbuf(buf: &Vec<f32>, width: u32, height: u32)`:
`ImageBuffer::from_vec(width, height, buf.iter().map(|c| *c as u8).collect()).unwrap()`.
`from_vec` succeeds iff the (length-preserving) converted buffer holds at
least `width * height` samples; the `unwrap` panic on failure is `none`.
The resulting buffer is row-major, so pixel `(x, y)` is sample `y * width + x`. -/
noncomputable def to_imgbuf (buf : List ℝ) (width height : ℕ) : Option GrayImage :=
  if width * height ≤ buf.length then
    some ⟨width, height, fun x y => f32_as_u8 (buf.getD (y * width + x) 0)⟩
  else
    none

/-- The pixel sequence `image.pixels()` of `preprocess`, already mapped
through `p[0] as f32` and `(p + 1.0).ln()`: the `ImageBuffer` holds its
`width * height` pixels row-major, so buffer position `p` holds the pixel at
`(p % width, p / width)` (x varying fastest). -/
noncomputable def logStage (img : GrayImage) : List ℝ :=
  (List.range (img.width * img.height)).map
    (fun p => Real.log ((img.pix (p % img.width) (p / img.width) : ℝ) + 1))

/-- The mean-subtraction stage of `preprocess`:
`let mean = sum / len; for each p, *p = *p - mean`. -/
noncomputable def meanStage (l : List ℝ) : List ℝ :=
  l.map (fun p => p - l.sum / (l.length : ℝ))

/-- The L2 norm `preprocess` computes: `u = sum of a * a; norm = u.sqrt()`. -/
noncomputable def l2norm (l : List ℝ) : ℝ :=
  Real.sqrt ((l.map (fun a => a * a)).sum)

/-- The normalization stage of `preprocess`:
`if norm != 0.0 { for each e, *e = *e / norm }` (otherwise unchanged). -/
noncomputable def normStage (l : List ℝ) : List ℝ :=
  if l2norm l = 0 then l else l.map (fun e => e / l2norm l)

/-- The cosine-window multiplier `preprocess` computes for loop counters
`(i, j)`: `cww = sin(π·i / (width - 1)); cwh = sin(π·j / (height - 1));
cww.min(cwh)`. The `u32` subtractions match `ℕ` subtraction for
`width, height ≥ 1`; for `width = 1` or `height = 1` the `f32` code divides
by zero (undefined per the spec), where the `ℝ` model yields `x / 0 = 0`. -/
noncomputable def cosWindow (width height : ℕ) (i j : ℕ) : ℝ :=
  min (Real.sin (Real.pi * (i : ℝ) / ((width - 1 : ℕ) : ℝ)))
    (Real.sin (Real.pi * (j : ℝ) / ((height - 1 : ℕ) : ℝ)))

/-- The window loop of `preprocess`, with its running `position` counter:
`for i in 0..width { for j in 0..height { prepped[position] =
cww.min(cwh) * prepped[position]; position += 1 } }`. Position `p` is
reached at loop counters `(i, j) = (p / height, p % height)`; the loop
visits positions `0, 1, 2, …` in order, exactly the indices of `prepped`
(whose length is `width * height`). -/
noncomputable def windowLoop (width height position : ℕ) : List ℝ → List ℝ
  | [] => []
  | v :: rest =>
      cosWindow width height (position / height) (position % height) * v ::
        windowLoop width height (position + 1) rest

/-- `pub fn preprocess(image: &GrayImage) -> Vec<f32>`: log compression of
the row-major pixel stream, mean subtraction, norm division, then the
cosine-window loop starting at `position = 0`. -/
noncomputable def preprocess (img : GrayImage) : List ℝ :=
  windowLoop img.width img.height 0 (normStage (meanStage (logStage img)))

/-- Claim-side definition (it follows claim C1's words, not the source): the
log stage of a `preprocess` in which ALL stages use one consistent
column-major order — the element at position `p` is derived from the pixel
at `(x, y)` with `p = x * height + y`, i.e. `(x, y) = (p / height, p % height)`.
The source's actual pixel stream is `logStage` above, which is row-major. -/
noncomputable def logStageColumnMajor (img : GrayImage) : List ℝ :=
  (List.range (img.width * img.height)).map
    (fun p => Real.log ((img.pix (p / img.height) (p % img.height) : ℝ) + 1))

/-- Claim-side definition: `preprocess` as claim C1 describes it, with every
stage (including the pixel gathering) in the same column-major order that the
window loop of the source uses, so that the log/mean/norm value and the
window multiplier at each position refer to the same pixel. -/
noncomputable def preprocessColumnMajor (img : GrayImage) : List ℝ :=
  windowLoop img.width img.height 0
    (normStage (meanStage (logStageColumnMajor img)))

/-- A 3×4 frame, zero everywhere except intensity 254 at `(x, y) = (1, 1)`:
the concrete input on which the source's mixed iteration orders diverge. -/
def frame3x4 : GrayImage :=
  ⟨3, 4, fun x y => if x = 1 ∧ y = 1 then 254 else 0⟩

end Mosse

namespace Mosse

theorem windowLoop_length (width height : ℕ) :
    ∀ (position : ℕ) (l : List ℝ),
      (windowLoop width height position l).length = l.length := by
  intro position l
  induction l generalizing position with
  | nil => rfl
  | cons v rest ih => simp [windowLoop, ih]

theorem preprocess_length_eq (img : GrayImage) :
    (preprocess img).length = img.width * img.height := by
  simp [preprocess, windowLoop_length, normStage, meanStage, logStage]
  split <;> simp

/-- Claim C2: for every frame with `width, height ≥ 2`, the vector returned
by `preprocess` has length exactly `width * height`. -/
theorem preprocess_length (img : GrayImage) (hW : 2 ≤ img.width)
    (hH : 2 ≤ img.height) :
    (preprocess img).length = img.width * img.height :=
  preprocess_length_eq img

/-- Witness for C2 at a 2×2 frame. -/
theorem preprocess_length_witness :
    (2 : ℕ) ≤ 2 ∧ (preprocess ⟨2, 2, fun _ _ => 0⟩).length = 2 * 2 :=
  ⟨le_refl 2, preprocess_length ⟨2, 2, fun _ _ => 0⟩ (le_refl 2) (le_refl 2)⟩

theorem logStage_zero (img : GrayImage)
    (hzero : ∀ x y, x < img.width → y < img.height → img.pix x y = 0) :
    logStage img = List.replicate (img.width * img.height) 0 := by
  refine List.eq_replicate_iff.mpr ⟨by simp [logStage], ?_⟩
  intro b hb
  simp only [logStage, List.mem_map, List.mem_range] at hb
  obtain ⟨p, hp, rfl⟩ := hb
  have hWpos : 0 < img.width := by
    rcases Nat.eq_zero_or_pos img.width with h | h
    · rw [h] at hp; omega
    · exact h
  have hx : p % img.width < img.width := Nat.mod_lt _ hWpos
  have hy : p / img.width < img.height := by
    rw [Nat.div_lt_iff_lt_mul hWpos, Nat.mul_comm]
    exact hp
  rw [hzero _ _ hx hy]
  norm_num

theorem meanStage_replicate_zero (n : ℕ) :
    meanStage (List.replicate n (0 : ℝ)) = List.replicate n 0 := by
  simp [meanStage]

theorem normStage_replicate_zero (n : ℕ) :
    normStage (List.replicate n (0 : ℝ)) = List.replicate n 0 := by
  simp [normStage, l2norm]

theorem windowLoop_replicate_zero (width height : ℕ) :
    ∀ (position n : ℕ),
      windowLoop width height position (List.replicate n (0 : ℝ)) =
        List.replicate n 0 := by
  intro position n
  induction n generalizing position with
  | zero => rfl
  | succ m ih => simp [windowLoop, ih, List.replicate_succ]

/-- Claim C5: a frame with `width, height ≥ 2` whose pixels are all zero is
mapped by `preprocess` to the all-zero vector of length `width * height`
(log of 0+1 is 0, the mean is 0, the norm is 0 so division is skipped, and
the window multipliers scale zeros). -/
theorem preprocess_zero_frame (img : GrayImage) (hW : 2 ≤ img.width)
    (hH : 2 ≤ img.height)
    (hzero : ∀ x y, x < img.width → y < img.height → img.pix x y = 0) :
    preprocess img = List.replicate (img.width * img.height) 0 := by
  rw [preprocess, logStage_zero img hzero, meanStage_replicate_zero,
    normStage_replicate_zero, windowLoop_replicate_zero]

/-- Witness for C5 at the 2×2 all-zero frame. -/
theorem preprocess_zero_frame_witness :
    preprocess ⟨2, 2, fun _ _ => 0⟩ = List.replicate (2 * 2) 0 :=
  preprocess_zero_frame ⟨2, 2, fun _ _ => 0⟩ (le_refl 2) (le_refl 2)
    (fun _ _ _ _ => rfl)

theorem sum_sq_nonneg (l : List ℝ) : 0 ≤ (l.map (fun a => a * a)).sum := by
  apply List.sum_nonneg
  intro x hx
  obtain ⟨a, _, rfl⟩ := List.mem_map.mp hx
  exact mul_self_nonneg a

theorem all_zero_of_sum_sq_zero (l : List ℝ)
    (h : (l.map (fun a => a * a)).sum = 0) : ∀ x ∈ l, x = 0 := by
  induction l with
  | nil => simp
  | cons a rest ih =>
    simp only [List.map_cons, List.sum_cons] at h
    have hrest : 0 ≤ (rest.map (fun a => a * a)).sum := sum_sq_nonneg rest
    have ha2 : 0 ≤ a * a := mul_self_nonneg a
    have ha : a * a = 0 := by linarith
    intro x hx
    rcases List.mem_cons.mp hx with rfl | hx
    · exact mul_self_eq_zero.mp ha
    · exact ih (by linarith) x hx

theorem sum_sq_map_div (l : List ℝ) (c : ℝ) :
    ((l.map (fun e => e / c)).map (fun a => a * a)).sum =
      (l.map (fun a => a * a)).sum / (c * c) := by
  induction l with
  | nil => simp
  | cons a rest ih =>
    simp only [List.map_cons, List.sum_cons, ih]
    ring

/-- Claim C4: for a frame with `width, height ≥ 2`, immediately after the
norm-division stage (before the cosine window): if the L2 norm of the
mean-subtracted vector is `0`, that vector is entirely zero and the division
is skipped (the stage returns it unchanged); otherwise the stage's output
has L2 norm exactly `1`. -/
theorem normStage_unit_norm (img : GrayImage) (hW : 2 ≤ img.width)
    (hH : 2 ≤ img.height) :
    (l2norm (meanStage (logStage img)) = 0 →
      normStage (meanStage (logStage img)) = meanStage (logStage img)
        ∧ ∀ x ∈ meanStage (logStage img), x = 0)
    ∧ (l2norm (meanStage (logStage img)) ≠ 0 →
      l2norm (normStage (meanStage (logStage img))) = 1) := by
  set v := meanStage (logStage img) with hv
  constructor
  · intro h0
    refine ⟨by rw [normStage, if_pos h0], ?_⟩
    apply all_zero_of_sum_sq_zero
    have husq : 0 ≤ (v.map (fun a => a * a)).sum := sum_sq_nonneg v
    have hle : (v.map (fun a => a * a)).sum ≤ 0 := Real.sqrt_eq_zero'.mp h0
    linarith
  · intro hne
    have husq : 0 ≤ (v.map (fun a => a * a)).sum := sum_sq_nonneg v
    have hupos : 0 < (v.map (fun a => a * a)).sum := by
      rcases lt_or_eq_of_le husq with h | h
      · exact h
      · exact absurd (by rw [l2norm, ← h, Real.sqrt_zero]) hne
    have hNN : l2norm v * l2norm v = (v.map (fun a => a * a)).sum :=
      Real.mul_self_sqrt husq
    rw [normStage, if_neg hne, l2norm, sum_sq_map_div, hNN,
      div_self (ne_of_gt hupos), Real.sqrt_one]

/-- Witness for C4 at the 2×2 all-zero frame (the zero-norm branch). -/
theorem normStage_unit_norm_witness :
    normStage (meanStage (logStage ⟨2, 2, fun _ _ => 0⟩)) =
      meanStage (logStage ⟨2, 2, fun _ _ => 0⟩)
    ∧ ∀ x ∈ meanStage (logStage ⟨2, 2, fun _ _ => 0⟩), x = 0 :=
  (normStage_unit_norm ⟨2, 2, fun _ _ => 0⟩ (le_refl 2) (le_refl 2)).1
    (by rw [logStage_zero _ (fun _ _ _ _ => rfl), meanStage_replicate_zero]
        simp [l2norm])

theorem sin_window_term_nonneg (w i : ℕ) (hw : 2 ≤ w) (hi : i < w) :
    0 ≤ Real.sin (Real.pi * (i : ℝ) / ((w - 1 : ℕ) : ℝ)) := by
  have hd : (0 : ℝ) < ((w - 1 : ℕ) : ℝ) := by
    have : 1 ≤ w - 1 := by omega
    exact_mod_cast Nat.lt_of_lt_of_le Nat.zero_lt_one this
  apply Real.sin_nonneg_of_nonneg_of_le_pi
  · positivity
  · rw [div_le_iff₀ hd]
    have hle : (i : ℝ) ≤ ((w - 1 : ℕ) : ℝ) := by
      exact_mod_cast Nat.le_sub_one_of_lt hi
    exact mul_le_mul_of_nonneg_left hle Real.pi_pos.le

theorem sin_window_term_zero_right (w : ℕ) (hw : 2 ≤ w) :
    Real.sin (Real.pi * ((w - 1 : ℕ) : ℝ) / ((w - 1 : ℕ) : ℝ)) = 0 := by
  have hd : ((w - 1 : ℕ) : ℝ) ≠ 0 := by
    have : 1 ≤ w - 1 := by omega
    positivity
  rw [mul_div_assoc, div_self hd, mul_one, Real.sin_pi]

/-- Claim C6: for `width, height ≥ 2` and loop counters `i < width`,
`j < height`, the window multiplier `preprocess` applies equals
`min (sin (π·i/(width-1))) (sin (π·j/(height-1)))`; it lies in `[0, 1]`,
and equals `0` on the frame border (`i = 0`, `i = width-1`, `j = 0`, or
`j = height-1`). -/
theorem cosWindow_spec (w h i j : ℕ) (hw : 2 ≤ w) (hh : 2 ≤ h)
    (hi : i < w) (hj : j < h) :
    cosWindow w h i j =
      min (Real.sin (Real.pi * (i : ℝ) / ((w - 1 : ℕ) : ℝ)))
        (Real.sin (Real.pi * (j : ℝ) / ((h - 1 : ℕ) : ℝ)))
    ∧ 0 ≤ cosWindow w h i j ∧ cosWindow w h i j ≤ 1
    ∧ ((i = 0 ∨ i = w - 1 ∨ j = 0 ∨ j = h - 1) → cosWindow w h i j = 0) := by
  have hwi := sin_window_term_nonneg w i hw hi
  have hhj := sin_window_term_nonneg h j hh hj
  refine ⟨rfl, le_min hwi hhj,
    (min_le_left _ _).trans (Real.sin_le_one _), ?_⟩
  rintro (rfl | rfl | rfl | rfl)
  · simp only [cosWindow]
    have hz : Real.sin (Real.pi * ((0 : ℕ) : ℝ) / ((w - 1 : ℕ) : ℝ)) = 0 := by
      simp
    rw [min_eq_left (by rw [hz]; exact hhj)]
    exact hz
  · simp only [cosWindow]
    have hz := sin_window_term_zero_right w hw
    rw [min_eq_left (by rw [hz]; exact hhj)]
    exact hz
  · simp only [cosWindow]
    have hz : Real.sin (Real.pi * ((0 : ℕ) : ℝ) / ((h - 1 : ℕ) : ℝ)) = 0 := by
      simp
    rw [min_eq_right (by rw [hz]; exact hwi)]
    exact hz
  · simp only [cosWindow]
    have hz := sin_window_term_zero_right h hh
    rw [min_eq_right (by rw [hz]; exact hwi)]
    exact hz

/-- Witness for C6 at `width = height = 2`, `(i, j) = (0, 0)` (a border
position, so the multiplier is 0, which indeed lies in `[0, 1]`). -/
theorem cosWindow_spec_witness :
    0 ≤ cosWindow 2 2 0 0 ∧ cosWindow 2 2 0 0 = 0 :=
  ⟨(cosWindow_spec 2 2 0 0 (le_refl 2) (le_refl 2) (by decide) (by decide)).2.1,
    (cosWindow_spec 2 2 0 0 (le_refl 2) (le_refl 2) (by decide)
      (by decide)).2.2.2 (Or.inl rfl)⟩

theorem windowLoop_getElem (w h : ℕ) :
    ∀ (l : List ℝ) (pos k : ℕ),
      (windowLoop w h pos l)[k]? =
        (l[k]?).map (fun v => cosWindow w h ((pos + k) / h) ((pos + k) % h) * v) := by
  intro l
  induction l with
  | nil => intro pos k; simp [windowLoop]
  | cons v rest ih =>
    intro pos k
    cases k with
    | zero => simp [windowLoop]
    | succ m =>
      have hpos : pos + (m + 1) = pos + 1 + m := by omega
      simp only [windowLoop, List.getElem?_cons_succ, hpos]
      exact ih (pos + 1) m

theorem logStage_frame3x4 :
    logStage frame3x4 =
      [0, 0, 0, 0, Real.log 255, 0, 0, 0, 0, 0, 0, 0] := by
  have hr : List.range (frame3x4.width * frame3x4.height) =
      [0, 1, 2, 3, 4, 5, 6, 7, 8, 9, 10, 11] := by decide
  rw [logStage, hr]
  simp only [List.map_cons, List.map_nil]
  norm_num [frame3x4, Real.log_one]

theorem logStageColumnMajor_frame3x4 :
    logStageColumnMajor frame3x4 =
      [0, 0, 0, 0, 0, Real.log 255, 0, 0, 0, 0, 0, 0] := by
  have hr : List.range (frame3x4.width * frame3x4.height) =
      [0, 1, 2, 3, 4, 5, 6, 7, 8, 9, 10, 11] := by decide
  rw [logStageColumnMajor, hr]
  simp only [List.map_cons, List.map_nil]
  norm_num [frame3x4, Real.log_one]

theorem meanStage_frame3x4 :
    meanStage (logStage frame3x4) =
      [-(Real.log 255 / 12), -(Real.log 255 / 12), -(Real.log 255 / 12),
        -(Real.log 255 / 12), Real.log 255 - Real.log 255 / 12,
        -(Real.log 255 / 12), -(Real.log 255 / 12), -(Real.log 255 / 12),
        -(Real.log 255 / 12), -(Real.log 255 / 12), -(Real.log 255 / 12),
        -(Real.log 255 / 12)] := by
  rw [logStage_frame3x4]
  simp only [meanStage, List.map_cons, List.map_nil, List.sum_cons,
    List.sum_nil, List.length_cons, List.length_nil]
  norm_num

theorem meanStageCM_frame3x4 :
    meanStage (logStageColumnMajor frame3x4) =
      [-(Real.log 255 / 12), -(Real.log 255 / 12), -(Real.log 255 / 12),
        -(Real.log 255 / 12), -(Real.log 255 / 12),
        Real.log 255 - Real.log 255 / 12,
        -(Real.log 255 / 12), -(Real.log 255 / 12), -(Real.log 255 / 12),
        -(Real.log 255 / 12), -(Real.log 255 / 12), -(Real.log 255 / 12)] := by
  rw [logStageColumnMajor_frame3x4]
  simp only [meanStage, List.map_cons, List.map_nil, List.sum_cons,
    List.sum_nil, List.length_cons, List.length_nil]
  norm_num

theorem l2norm_frame3x4_pos : 0 < l2norm (meanStage (logStage frame3x4)) := by
  have hL : 0 < Real.log 255 := Real.log_pos (by norm_num)
  rw [l2norm, meanStage_frame3x4]
  apply Real.sqrt_pos.mpr
  simp only [List.map_cons, List.map_nil, List.sum_cons, List.sum_nil]
  nlinarith [mul_pos hL hL]

theorem l2normCM_frame3x4_pos :
    0 < l2norm (meanStage (logStageColumnMajor frame3x4)) := by
  have hL : 0 < Real.log 255 := Real.log_pos (by norm_num)
  rw [l2norm, meanStageCM_frame3x4]
  apply Real.sqrt_pos.mpr
  simp only [List.map_cons, List.map_nil, List.sum_cons, List.sum_nil]
  nlinarith [mul_pos hL hL]

theorem cosWindow_3411_pos : 0 < cosWindow 3 4 1 1 := by
  have hπ := Real.pi_pos
  rw [cosWindow]
  have h2 : (((3 : ℕ) - 1 : ℕ) : ℝ) = 2 := by norm_num
  have h3 : (((4 : ℕ) - 1 : ℕ) : ℝ) = 3 := by norm_num
  rw [h2, h3]
  apply lt_min
  · apply Real.sin_pos_of_pos_of_lt_pi
    · push_cast
      linarith
    · push_cast
      linarith
  · apply Real.sin_pos_of_pos_of_lt_pi
    · push_cast
      linarith
    · push_cast
      linarith

theorem preprocess_frame3x4_at5 :
    (preprocess frame3x4)[5]? =
      some (cosWindow 3 4 1 1 *
        (-(Real.log 255 / 12) / l2norm (meanStage (logStage frame3x4)))) := by
  have hN := l2norm_frame3x4_pos
  show (windowLoop 3 4 0 (normStage (meanStage (logStage frame3x4))))[5]? = _
  rw [windowLoop_getElem 3 4 _ 0 5, normStage, if_neg (ne_of_gt hN)]
  rw [meanStage_frame3x4] at hN ⊢
  simp only [List.map_cons, List.map_nil]
  norm_num

theorem preprocessCM_frame3x4_at5 :
    (preprocessColumnMajor frame3x4)[5]? =
      some (cosWindow 3 4 1 1 *
        ((Real.log 255 - Real.log 255 / 12) /
          l2norm (meanStage (logStageColumnMajor frame3x4)))) := by
  have hN := l2normCM_frame3x4_pos
  show (windowLoop 3 4 0 (normStage (meanStage (logStageColumnMajor frame3x4))))[5]? = _
  rw [windowLoop_getElem 3 4 _ 0 5, normStage, if_neg (ne_of_gt hN)]
  rw [meanStageCM_frame3x4] at hN ⊢
  simp only [List.map_cons, List.map_nil]
  norm_num

/-- Claim C1 fails on the code (the code is the slip — see `frame3x4`): the
source gathers/logs/means/norms the pixels in row-major order
(`image.pixels()` walks the buffer x-fastest) while its window loop indexes
the very same buffer column-major (`p = i * height + j`), so for non-square
frames the window multiplier applied at a position refers to a different
pixel than the value stored there. On `frame3x4` the actual `preprocess`
differs from the consistently column-major `preprocess` the claim describes:
at position `5 = 1 * height + 1` the code returns a negative value (window
of counters `(1, 1)` times the normalized value of pixel `(2, 1)`), whereas
per the claim that element is the window at `(1, 1)` times the normalized
value of the bright pixel `(1, 1)`, which is positive. -/
theorem preprocess_window_order_mismatch :
    preprocess frame3x4 ≠ preprocessColumnMajor frame3x4 := by
  intro heq
  have h5 : (preprocess frame3x4)[5]? = (preprocessColumnMajor frame3x4)[5]? := by
    rw [heq]
  rw [preprocess_frame3x4_at5, preprocessCM_frame3x4_at5] at h5
  have hL : 0 < Real.log 255 := Real.log_pos (by norm_num)
  have hc := cosWindow_3411_pos
  have hN := l2norm_frame3x4_pos
  have hNCM := l2normCM_frame3x4_pos
  have hneg : cosWindow 3 4 1 1 *
      (-(Real.log 255 / 12) / l2norm (meanStage (logStage frame3x4))) < 0 := by
    apply mul_neg_of_pos_of_neg hc
    apply div_neg_of_neg_of_pos _ hN
    linarith
  have hpos : 0 < cosWindow 3 4 1 1 *
      ((Real.log 255 - Real.log 255 / 12) /
        l2norm (meanStage (logStageColumnMajor frame3x4))) := by
    apply mul_pos hc
    apply div_pos _ hNCM
    linarith
  have : cosWindow 3 4 1 1 *
      (-(Real.log 255 / 12) / l2norm (meanStage (logStage frame3x4))) =
      cosWindow 3 4 1 1 *
      ((Real.log 255 - Real.log 255 / 12) /
        l2norm (meanStage (logStageColumnMajor frame3x4))) :=
    Option.some_injective ℝ h5
  linarith

/-- Claim C8: calling `index_to_coords` with `width = 0` fails explicitly
(the `checked_rem` returns `None` and the `unwrap` panics) for every index,
rather than returning any coordinate pair. -/
theorem index_to_coords_zero_width_fails (index : ℕ) :
    index_to_coords 0 index = none := by
  simp [index_to_coords]

/-- Claim C7: for `width > 0` and `index < width * height`, `index_to_coords`
returns `(x, y)` with `x = index % width` and `y = (index - x) / width`; in
particular `x < width`, `index_to_coords width 0 = (0, 0)`,
`index_to_coords 4 4 = (0, 1)` and `index_to_coords 4 31 = (3, 7)`. -/
theorem index_to_coords_spec (width index height : ℕ) (hw : 0 < width)
    (hidx : index < width * height) :
    index_to_coords width index =
      some (index % width, (index - index % width) / width)
    ∧ index % width < width
    ∧ index_to_coords width 0 = some (0, 0)
    ∧ index_to_coords 4 4 = some (0, 1)
    ∧ index_to_coords 4 31 = some (3, 7) := by
  have hne : width ≠ 0 := Nat.pos_iff_ne_zero.mp hw
  refine ⟨?_, Nat.mod_lt _ hw, ?_, by decide, by decide⟩
  · simp [index_to_coords, hne, Nat.not_lt.mpr (Nat.mod_le index width)]
  · simp [index_to_coords, hne]

/-- Witness for C7 at `width = 4`, `index = 4`, `height = 8`. -/
theorem index_to_coords_spec_witness :
    0 < 4 ∧ 4 < 4 * 8 ∧ index_to_coords 4 4 = some (4 % 4, (4 - 4 % 4) / 4) :=
  ⟨by decide, by decide,
    (index_to_coords_spec 4 4 8 (by decide) (by decide)).1⟩

/-- Claim C10: for every `width > 0` and every 32-bit index, with no upper
bound on the index, `index_to_coords` succeeds (no checked operation fails)
and returns `(x, y)` with `x < width` and `x + width * y = index`. -/
theorem index_to_coords_reconstructs (width index : ℕ) (hw : 0 < width)
    (hidx : index < 2 ^ 32) :
    ∃ x y, index_to_coords width index = some (x, y)
      ∧ x < width ∧ x + width * y = index := by
  have hne : width ≠ 0 := Nat.pos_iff_ne_zero.mp hw
  refine ⟨index % width, (index - index % width) / width, ?_, Nat.mod_lt _ hw, ?_⟩
  · simp [index_to_coords, hne, Nat.not_lt.mpr (Nat.mod_le index width)]
  · have hsub : index - index % width = width * (index / width) := by
      have hdm := Nat.div_add_mod index width
      omega
    rw [hsub, Nat.mul_div_cancel_left _ hw, Nat.add_comm]
    exact Nat.div_add_mod index width

/-- Witness for C10 at `width = 4`, `index = 100` (note `100 ≥ 4 * h` for
small `h`: the index is not bounded by any frame area). -/
theorem index_to_coords_reconstructs_witness :
    0 < 4 ∧ 100 < 2 ^ 32
    ∧ ∃ x y, index_to_coords 4 100 = some (x, y) ∧ x < 4 ∧ x + 4 * y = 100 :=
  ⟨by decide, by norm_num,
    index_to_coords_reconstructs 4 100 (by decide) (by norm_num)⟩

/-- Claim C3: whenever `window_width ≤ width`, `window_height ≤ height` and
the center lies inside the frame (including centers near the edges, where the
corner is clamped), `window_crop` returns a frame of exactly the requested
dimensions. -/
theorem window_crop_dimensions (img : GrayImage) (window_width window_height : ℕ)
    (cx cy : ℕ) (hww : window_width ≤ img.width) (hwh : window_height ≤ img.height)
    (hcx : cx < img.width) (hcy : cy < img.height) :
    (window_crop img window_width window_height (cx, cy)).width = window_width
    ∧ (window_crop img window_width window_height (cx, cy)).height = window_height := by
  simp only [window_crop, crop_dimms]
  constructor <;> omega

/-- Witness for C3: a 32×32 frame, 4×8 window, center at the corner `(0, 0)`. -/
theorem window_crop_dimensions_witness :
    (window_crop ⟨32, 32, fun _ _ => 0⟩ 4 8 (0, 0)).width = 4
    ∧ (window_crop ⟨32, 32, fun _ _ => 0⟩ 4 8 (0, 0)).height = 8 :=
  window_crop_dimensions ⟨32, 32, fun _ _ => 0⟩ 4 8 0 0
    (by decide) (by decide) (by decide) (by decide)

/-- Counterexample for C9 as stated: a buffer of length 2 with
`width * height = 1` has mismatched length, yet `to_imgbuf` succeeds
(`from_vec` only requires the buffer to be at least `width * height` long),
so a length mismatch with an oversized buffer is not a fatal error. -/
theorem to_imgbuf_oversized_succeeds :
    (2 : ℕ) ≠ 1 * 1 ∧ to_imgbuf [(0 : ℝ), 0] 1 1 ≠ none := by
  refine ⟨by decide, ?_⟩
  simp [to_imgbuf]

/-- Claim C9, amended: `to_imgbuf` fails (the `unwrap` panics) exactly when
the buffer holds fewer than `width * height` samples; whenever
`len(values) ≥ width * height` — in particular when they are equal — it
returns a frame of dimensions `(width, height)`. -/
theorem to_imgbuf_spec (buf : List ℝ) (width height : ℕ) :
    (buf.length < width * height → to_imgbuf buf width height = none)
    ∧ (width * height ≤ buf.length →
        ∃ img, to_imgbuf buf width height = some img
          ∧ img.width = width ∧ img.height = height) := by
  constructor
  · intro h
    simp [to_imgbuf, Nat.not_le.mpr h]
  · intro h
    refine ⟨⟨width, height, fun x y => f32_as_u8 (buf.getD (y * width + x) 0)⟩,
      ?_, rfl, rfl⟩
    simp [to_imgbuf, h]

/-- Witness for C9 (amended) at an exact-length buffer: `1 * 1 = len [0]`. -/
theorem to_imgbuf_spec_witness :
    ∃ img, to_imgbuf [(0 : ℝ)] 1 1 = some img
      ∧ img.width = 1 ∧ img.height = 1 :=
  (to_imgbuf_spec [(0 : ℝ)] 1 1).2 (by simp)

end Mosse
